import Mathlib

/-!
Shallow embedding of the budget-optimization subsystem of QuickBudgetBuilder:
the `BudgetOptimizer` class (server/services; `optimizeForBudget`,
`optimizeForBudgetFallback`, `findBudgetAlternatives`,
`calculateBudgetUtilization`, `getBudgetStatus`) and the oracle path
`GeminiService.optimizeOutfitForBudget`.

Products carry an opaque id, a display name, a `real` price (embedded as ℚ)
and a category, matching the `products` table of the shared schema.  The
effectful parts are made explicit: the catalog snapshot
(`storage.getAllProducts()`) is a parameter, and the Gemini oracle is a pair
of parameters — whether the client is initialized (`genAIAvailable`, i.e.
`genAI !== null`) and the outcome of the request/parse step
(`Except Unit (List ProposedSwap)`, where `Except.error` stands for any thrown
error and `Except.ok` for a successfully parsed `swaps` list, with
`resultData.swaps || []` collapsing a missing field to `[]`).
-/

namespace QuickBudget

/-- Product rows of the `products` table: `id` (text primary key), `name`,
`price` (`real`, embedded as ℚ), `category`.  The remaining columns
(tags, image_url, color, sizes, brand, colors) are never consulted by the
optimizer and are omitted. -/
structure Product where
  id : String
  name : String
  price : ℚ
  category : String
deriving DecidableEq, Repr

/-- One entry of `swapsMade`: original product, replacement product and the
price difference recorded as `savings`. -/
structure Swap where
  original : Product
  replacement : Product
  savings : ℚ
deriving DecidableEq, Repr

/-- The `BudgetOptimization` result record returned by `optimizeForBudget`. -/
structure BudgetOptimization where
  optimizedProducts : List Product
  totalCost : ℚ
  savings : ℚ
  swapsMade : List Swap
deriving DecidableEq, Repr

/-- Embeds `products.reduce((sum, p) => sum + p.price, 0)`. -/
def sumPrices (l : List Product) : ℚ :=
  l.foldl (fun s p => s + p.price) 0

/-- Embeds `BudgetOptimizer.findBudgetAlternatives`: all catalog items of the
same category, strictly cheaper, with a different id. -/
def findBudgetAlternatives (product : Product) (allProducts : List Product) :
    List Product :=
  allProducts.filter fun alt =>
    alt.category == product.category && alt.price < product.price &&
      alt.id != product.id

/-- Embeds `alternatives.reduce((best, alt) => alt.price < best.price ? alt : best)`
on a nonempty list `a :: rest`: the first minimum-price element wins. -/
def cheapestOf (a : Product) (rest : List Product) : Product :=
  rest.foldl (fun best alt => if alt.price < best.price then alt else best) a

/-- Embeds the `for (let i = 0; ...)` loop of `optimizeForBudgetFallback`.
The loop condition `i < optimizedProducts.length` is realised by fuel
(initially `products.length`; `List.set` keeps the length constant, so the
fuel runs out exactly when `i` reaches the length) together with the
out-of-range check `optimized[i]?`. -/
def fallbackGo (allProducts : List Product) (budget : ℚ) :
    Nat → Nat → List Product → List Swap → List Product × List Swap
  | 0, _, optimized, swaps => (optimized, swaps)
  | fuel + 1, i, optimized, swaps =>
    match optimized[i]? with
    | none => (optimized, swaps)
    | some product =>
      match findBudgetAlternatives product allProducts with
      | [] => fallbackGo allProducts budget fuel (i + 1) optimized swaps
      | a :: rest =>
        let bestAlternative := cheapestOf a rest
        let savings := product.price - bestAlternative.price
        if 0 < savings then
          let swaps2 := swaps ++ [⟨product, bestAlternative, savings⟩]
          let optimized2 := optimized.set i bestAlternative
          if sumPrices optimized2 ≤ budget then (optimized2, swaps2)
          else fallbackGo allProducts budget fuel (i + 1) optimized2 swaps2
        else fallbackGo allProducts budget fuel (i + 1) optimized swaps

/-- Embeds `BudgetOptimizer.optimizeForBudgetFallback` (the catalog snapshot
`storage.getAllProducts()` is the parameter `allProducts`). -/
def optimizeForBudgetFallback (products : List Product) (budget : ℚ)
    (allProducts : List Product) : BudgetOptimization :=
  ⟨(fallbackGo allProducts budget products.length 0 products []).1,
    sumPrices (fallbackGo allProducts budget products.length 0 products []).1,
    sumPrices products -
      sumPrices (fallbackGo allProducts budget products.length 0 products []).1,
    (fallbackGo allProducts budget products.length 0 products []).2⟩

/-- One record of the parsed oracle response `resultData.swaps`: the fields
`savings` and `reason` are present in the expected JSON shape but never read
by the application loop. -/
structure ProposedSwap where
  original_product_id : String
  replacement_product_id : String
  savings : ℚ
  reason : String
deriving DecidableEq, Repr

/-- Embeds one iteration of the `for (const swap of swaps)` loop of
`GeminiService.optimizeOutfitForBudget`: resolve the original id in the input
list and the replacement id in the catalog; if both resolve and the original
id is still present in the working list, replace it in place and record the
swap, else do nothing. -/
def applyOracleSwap (products availableProducts : List Product)
    (st : List Product × ℚ × List Swap) (swap : ProposedSwap) :
    List Product × ℚ × List Swap :=
  match products.find? (fun p => p.id == swap.original_product_id),
      availableProducts.find? (fun p => p.id == swap.replacement_product_id) with
  | some originalProduct, some replacementProduct =>
    match st.1.findIdx? (fun p => p.id == originalProduct.id) with
    | some index =>
      let savings := originalProduct.price - replacementProduct.price
      (st.1.set index replacementProduct, st.2.1 + savings,
        st.2.2 ++ [⟨originalProduct, replacementProduct, savings⟩])
    | none => st
  | _, _ => st

/-- Folds `applyOracleSwap` over the parsed swap list, starting from
`[...products]`, `totalSavings = 0`, `swapsMade = []`. -/
def applyOracleSwaps (products availableProducts : List Product)
    (swaps : List ProposedSwap) : List Product × ℚ × List Swap :=
  swaps.foldl (applyOracleSwap products availableProducts) (products, 0, [])

/-- Embeds `GeminiService.optimizeOutfitForBudget`.  `genAIAvailable = false`
models `genAI === null` (missing API key): the method throws before doing
anything.  `parsedSwaps = Except.error ()` models a thrown request or parse
error, rethrown by the catch block; `Except.ok swaps` models a successful
parse (with `resultData.swaps || []`). -/
def optimizeOutfitForBudget (genAIAvailable : Bool)
    (parsedSwaps : Except Unit (List ProposedSwap))
    (products : List Product) (budget : ℚ) (availableProducts : List Product) :
    Except Unit BudgetOptimization :=
  if !genAIAvailable then .error ()
  else if sumPrices products ≤ budget then .ok ⟨products, sumPrices products, 0, []⟩
  else
    match parsedSwaps with
    | .error _ => .error ()
    | .ok swaps =>
      .ok ⟨(applyOracleSwaps products availableProducts swaps).1,
        sumPrices (applyOracleSwaps products availableProducts swaps).1,
        (applyOracleSwaps products availableProducts swaps).2.1,
        (applyOracleSwaps products availableProducts swaps).2.2⟩

/-- Embeds `BudgetOptimizer.optimizeForBudget`: fast path when within budget,
then the Gemini oracle path, falling back to the deterministic
`optimizeForBudgetFallback` when the oracle path throws.  The same catalog
snapshot `allProducts` is passed to both paths. -/
def optimizeForBudget (genAIAvailable : Bool)
    (parsedSwaps : Except Unit (List ProposedSwap))
    (products : List Product) (budget : ℚ) (allProducts : List Product) :
    BudgetOptimization :=
  if sumPrices products ≤ budget then ⟨products, sumPrices products, 0, []⟩
  else
    match optimizeOutfitForBudget genAIAvailable parsedSwaps products budget
        allProducts with
    | .ok optimization =>
      ⟨optimization.optimizedProducts, optimization.totalCost,
        optimization.savings,
        optimization.swapsMade.map fun swap =>
          ⟨swap.original, swap.replacement, swap.savings⟩⟩
    | .error _ => optimizeForBudgetFallback products budget allProducts

/-- Embeds `BudgetOptimizer.calculateBudgetUtilization`:
`Math.min((totalCost / budget) * 100, 100)`. -/
def calculateBudgetUtilization (products : List Product) (budget : ℚ) : ℚ :=
  min (sumPrices products / budget * 100) 100

/-- Result record of `getBudgetStatus`. -/
structure BudgetStatus where
  isWithinBudget : Bool
  totalCost : ℚ
  remaining : ℚ
  utilizationPercent : ℚ
deriving DecidableEq, Repr

/-- Embeds `BudgetOptimizer.getBudgetStatus`. -/
def getBudgetStatus (products : List Product) (budget : ℚ) : BudgetStatus :=
  let totalCost := sumPrices products
  ⟨decide (totalCost ≤ budget), totalCost, budget - totalCost,
    calculateBudgetUtilization products budget⟩

/-! Concrete products for scenario checks. -/

/-- Product A of the concrete fallback scenario. -/
def prodA : Product := ⟨"A", "A", 40, "top"⟩

/-- Product B of the concrete fallback scenario. -/
def prodB : Product := ⟨"B", "B", 60, "shoes"⟩

/-- Cheaper top of the concrete fallback scenario. -/
def prodA2 : Product := ⟨"A2", "A2", 15, "top"⟩

/-- Cheaper shoes of the concrete fallback scenario. -/
def prodB2 : Product := ⟨"B2", "B2", 30, "shoes"⟩

/-- Cross-category cheap item used to probe the oracle path's validation. -/
def prodC : Product := ⟨"C", "C", 5, "shoes"⟩

/-! Helper lemmas about the embedded operations. -/

theorem sumPrices_foldl (l : List Product) (s : ℚ) :
    l.foldl (fun s p => s + p.price) s = s + sumPrices l := by
  induction l generalizing s with
  | nil => simp [sumPrices]
  | cons a t ih =>
    simp only [sumPrices, List.foldl_cons] at *
    rw [ih, ih (0 + a.price)]
    ring

theorem sumPrices_cons (a : Product) (l : List Product) :
    sumPrices (a :: l) = a.price + sumPrices l := by
  show (a :: l).foldl (fun s p => s + p.price) 0 = a.price + sumPrices l
  rw [List.foldl_cons, sumPrices_foldl]
  ring

theorem sumPrices_set (l : List Product) (i : ℕ) (x : Product) (h : i < l.length) :
    sumPrices (l.set i x) = sumPrices l - (l.get ⟨i, h⟩).price + x.price := by
  induction l generalizing i with
  | nil => simp at h
  | cons a t ih =>
    cases i with
    | zero =>
      simp only [List.set_cons_zero, sumPrices_cons, List.get_eq_getElem,
        List.getElem_cons_zero]
      ring
    | succ j =>
      simp only [List.set_cons_succ, sumPrices_cons, List.get_eq_getElem,
        List.getElem_cons_succ]
      have hj : j < t.length := by simpa using h
      rw [ih j hj]
      simp only [List.get_eq_getElem]
      ring

theorem mem_cheapestOf (a : Product) (rest : List Product) :
    cheapestOf a rest ∈ a :: rest := by
  induction rest generalizing a with
  | nil => simp [cheapestOf]
  | cons b t ih =>
    have h := ih (if b.price < a.price then b else a)
    have hstep : cheapestOf a (b :: t) =
        cheapestOf (if b.price < a.price then b else a) t := rfl
    rw [hstep]
    rcases List.mem_cons.1 h with h1 | h1
    · rw [h1]
      by_cases hb : b.price < a.price
      · simp [hb]
      · simp [hb]
    · exact List.mem_cons_of_mem _ (List.mem_cons_of_mem _ h1)

theorem mem_findBudgetAlternatives {alt product : Product} {allProducts : List Product}
    (h : alt ∈ findBudgetAlternatives product allProducts) :
    alt.category = product.category ∧ alt.price < product.price ∧
      alt.id ≠ product.id := by
  simp only [findBudgetAlternatives, List.mem_filter, Bool.and_eq_true, beq_iff_eq,
    bne_iff_ne, decide_eq_true_eq] at h
  tauto

theorem fallbackGo_fst_length (allProducts : List Product) (budget : ℚ) :
    ∀ (fuel i : ℕ) (optimized : List Product) (swaps : List Swap),
      (fallbackGo allProducts budget fuel i optimized swaps).1.length =
        optimized.length := by
  intro fuel
  induction fuel with
  | zero => intro i optimized swaps; rfl
  | succ n ih =>
    intro i optimized swaps
    simp only [fallbackGo]
    split
    · rfl
    · split
      · exact ih _ _ _
      · split
        · split
          · simp
          · rw [ih]
            simp
        · exact ih _ _ _

theorem optimizeForBudgetFallback_length (products : List Product) (budget : ℚ)
    (allProducts : List Product) :
    (optimizeForBudgetFallback products budget allProducts).optimizedProducts.length =
      products.length := by
  unfold optimizeForBudgetFallback
  exact fallbackGo_fst_length allProducts budget products.length 0 products []

theorem applyOracleSwap_fst_length (products availableProducts : List Product)
    (st : List Product × ℚ × List Swap) (swap : ProposedSwap) :
    (applyOracleSwap products availableProducts st swap).1.length = st.1.length := by
  unfold applyOracleSwap
  split
  · split
    · simp
    · rfl
  · rfl

theorem applyOracleSwaps_fst_length (products availableProducts : List Product)
    (swaps : List ProposedSwap) :
    (applyOracleSwaps products availableProducts swaps).1.length =
      products.length := by
  unfold applyOracleSwaps
  have h : ∀ (l : List ProposedSwap) (st : List Product × ℚ × List Swap),
      (l.foldl (applyOracleSwap products availableProducts) st).1.length =
        st.1.length := by
    intro l
    induction l with
    | nil => intro st; rfl
    | cons s t ih =>
      intro st
      rw [List.foldl_cons, ih]
      exact applyOracleSwap_fst_length products availableProducts st s
  exact h swaps (products, 0, [])

theorem optimizeOutfitForBudget_ok_length {genAIAvailable : Bool}
    {parsedSwaps : Except Unit (List ProposedSwap)}
    {products : List Product} {budget : ℚ} {availableProducts : List Product}
    {r : BudgetOptimization}
    (h : optimizeOutfitForBudget genAIAvailable parsedSwaps products budget
        availableProducts = .ok r) :
    r.optimizedProducts.length = products.length := by
  unfold optimizeOutfitForBudget at h
  split at h
  · exact absurd h (by simp)
  · split at h
    · cases h
      rfl
    · split at h
      · exact absurd h (by simp)
      · cases h
        exact applyOracleSwaps_fst_length products availableProducts _

/-- C10 — length preservation on every path: `optimizeForBudget` always returns
exactly as many products as it was given, whether it takes the fast path, the
oracle path (with any proposed swap list) or the deterministic fallback. -/
theorem c10_length_preserved_on_every_path (genAIAvailable : Bool)
    (parsedSwaps : Except Unit (List ProposedSwap))
    (products : List Product) (budget : ℚ) (allProducts : List Product) :
    (optimizeForBudget genAIAvailable parsedSwaps products budget
        allProducts).optimizedProducts.length = products.length := by
  unfold optimizeForBudget
  split
  · rfl
  · split
    · next r hr => simpa using optimizeOutfitForBudget_ok_length hr
    · exact optimizeForBudgetFallback_length products budget allProducts

/-- C1 — concrete fallback scenario: with the oracle unavailable, products
A ($40, top) and B ($60, shoes) against budget 70 and a catalog containing
A2 ($15, top) and B2 ($30, shoes) are optimized by the deterministic fallback:
A is swapped for A2 first (list order), the running cost 15 + 60 = 75 is still
above 70 so the loop continues, then B is swapped for B2 (the cheapest
same-category candidate), returning totalCost 45, savings 55 and exactly the
two swaps in that order. -/
theorem c1_fallback_concrete_scenario :
    optimizeForBudget false (.error ()) [prodA, prodB] 70
        [prodA, prodB, prodA2, prodB2] =
      ⟨[prodA2, prodB2], 45, 55, [⟨prodA, prodA2, 25⟩, ⟨prodB, prodB2, 30⟩]⟩ ∧
    sumPrices [prodA2, prodB] = 75 ∧ ¬ sumPrices [prodA2, prodB] ≤ 70 ∧
    (optimizeForBudget false (.error ()) [prodA, prodB] 70
        [prodA, prodB, prodA2, prodB2]).swapsMade.length = 2 :=
  of_decide_eq_true (by with_unfolding_all rfl)

/-- C3 — no-op fast path: for every non-empty product list whose price sum is
at most the budget, `optimizeForBudget` returns the input list itself with
totalCost equal to that sum, savings 0 and no swaps, independently of the
oracle parameters and of the catalog (so no oracle call and no substitution
work can influence the result). -/
theorem c3_noop_fast_path (genAIAvailable : Bool)
    (parsedSwaps : Except Unit (List ProposedSwap))
    (products : List Product) (budget : ℚ) (allProducts : List Product)
    (_hne : products ≠ []) (hle : sumPrices products ≤ budget) :
    optimizeForBudget genAIAvailable parsedSwaps products budget allProducts =
      ⟨products, sumPrices products, 0, []⟩ := by
  unfold optimizeForBudget
  rw [if_pos hle]

/-- Witness for C3 at a concrete within-budget input. -/
theorem c3_noop_fast_path_witness :
    ([prodA, prodB] : List Product) ≠ [] ∧ sumPrices [prodA, prodB] ≤ 100 ∧
      optimizeForBudget true (.ok [⟨"A", "A2", 25, "cheaper"⟩]) [prodA, prodB] 100
          [prodA2, prodB2] =
        ⟨[prodA, prodB], sumPrices [prodA, prodB], 0, []⟩ :=
  ⟨by simp, of_decide_eq_true (by with_unfolding_all rfl),
    c3_noop_fast_path true (.ok [⟨"A", "A2", 25, "cheaper"⟩]) [prodA, prodB] 100
      [prodA2, prodB2] (by simp) (of_decide_eq_true (by with_unfolding_all rfl))⟩

theorem optimizeOutfitForBudget_ok_totalCost {genAIAvailable : Bool}
    {parsedSwaps : Except Unit (List ProposedSwap)}
    {products : List Product} {budget : ℚ} {availableProducts : List Product}
    {r : BudgetOptimization}
    (h : optimizeOutfitForBudget genAIAvailable parsedSwaps products budget
        availableProducts = .ok r) :
    r.totalCost = sumPrices r.optimizedProducts := by
  unfold optimizeOutfitForBudget at h
  split at h
  · exact absurd h (by simp)
  · split at h
    · cases h
      rfl
    · split at h
      · exact absurd h (by simp)
      · cases h
        rfl

/-- C4 — cost accounting: on every path (fast path, oracle path, deterministic
fallback) the returned totalCost equals the sum of the prices of the returned
optimizedProducts. -/
theorem c4_total_cost_accounting (genAIAvailable : Bool)
    (parsedSwaps : Except Unit (List ProposedSwap))
    (products : List Product) (budget : ℚ) (allProducts : List Product) :
    (optimizeForBudget genAIAvailable parsedSwaps products budget
        allProducts).totalCost =
      sumPrices (optimizeForBudget genAIAvailable parsedSwaps products budget
        allProducts).optimizedProducts := by
  unfold optimizeForBudget
  split
  · rfl
  · split
    · next r hr => simpa using optimizeOutfitForBudget_ok_totalCost hr
    · rfl

/-- C6 — oracle failure routes to fallback: for every input over budget, if the
oracle path throws (missing credential, i.e. `genAIAvailable = false`, or a
request/parse error, i.e. `parsedSwaps = Except.error ()`), `optimizeForBudget`
returns exactly the result of the deterministic fallback on the same products,
budget and catalog, and propagates no error. -/
theorem c6_oracle_failure_routes_to_fallback (genAIAvailable : Bool)
    (parsedSwaps : Except Unit (List ProposedSwap))
    (products : List Product) (budget : ℚ) (allProducts : List Product)
    (hover : ¬ sumPrices products ≤ budget)
    (hfail : genAIAvailable = false ∨ parsedSwaps = .error ()) :
    optimizeForBudget genAIAvailable parsedSwaps products budget allProducts =
      optimizeForBudgetFallback products budget allProducts := by
  unfold optimizeForBudget
  rw [if_neg hover]
  have herr : optimizeOutfitForBudget genAIAvailable parsedSwaps products budget
      allProducts = .error () := by
    unfold optimizeOutfitForBudget
    rcases hfail with hg | hp
    · rw [hg]
      rfl
    · rw [hp]
      by_cases hg : genAIAvailable <;> simp [hg, hover]
  rw [herr]

/-- Witness for C6 at a concrete over-budget input with the oracle credential
missing. -/
theorem c6_oracle_failure_routes_to_fallback_witness :
    (¬ sumPrices [prodA, prodB] ≤ 70) ∧
      optimizeForBudget false (.ok []) [prodA, prodB] 70 [prodA2, prodB2] =
        optimizeForBudgetFallback [prodA, prodB] 70 [prodA2, prodB2] :=
  ⟨of_decide_eq_true (by with_unfolding_all rfl),
    c6_oracle_failure_routes_to_fallback false (.ok []) [prodA, prodB] 70
      [prodA2, prodB2] (of_decide_eq_true (by with_unfolding_all rfl))
      (Or.inl rfl)⟩

/-- C7 — an empty oracle swap list is final: for every input over budget, if
the oracle call succeeds and parses to zero swaps (a missing `swaps` field also
yields `[]` via `resultData.swaps || []`), `optimizeForBudget` returns the
zero-swap oracle result — the input list unchanged, savings 0, no swaps — and
the deterministic fallback is not consulted (the result is independent of the
catalog contents). -/
theorem c7_empty_oracle_swap_list_is_final (products : List Product)
    (budget : ℚ) (allProducts : List Product)
    (hover : ¬ sumPrices products ≤ budget) :
    optimizeForBudget true (.ok []) products budget allProducts =
      ⟨products, sumPrices products, 0, []⟩ := by
  unfold optimizeForBudget
  rw [if_neg hover]
  have hok : optimizeOutfitForBudget true (.ok []) products budget allProducts =
      .ok ⟨products, sumPrices products, 0, []⟩ := by
    unfold optimizeOutfitForBudget
    simp [hover, applyOracleSwaps]
  rw [hok]
  rfl

/-- Witness for C7: over budget, oracle succeeds with zero swaps, catalog does
contain cheaper same-category alternatives, yet nothing is swapped. -/
theorem c7_empty_oracle_swap_list_is_final_witness :
    (¬ sumPrices [prodA, prodB] ≤ 70) ∧
      optimizeForBudget true (.ok []) [prodA, prodB] 70 [prodA2, prodB2] =
        ⟨[prodA, prodB], sumPrices [prodA, prodB], 0, []⟩ :=
  ⟨of_decide_eq_true (by with_unfolding_all rfl),
    c7_empty_oracle_swap_list_is_final [prodA, prodB] 70 [prodA2, prodB2]
      (of_decide_eq_true (by with_unfolding_all rfl))⟩

/-- C9 — budget utilization clamp and status: for every product list and
positive budget, `calculateBudgetUtilization` equals
`min 100 (100 * sum(price) / budget)`, never exceeds 100, and
`getBudgetStatus` reports this value as utilizationPercent together with
`remaining = budget - totalCost` and `isWithinBudget ↔ totalCost ≤ budget`. -/
theorem c9_budget_utilization_clamp (products : List Product) (budget : ℚ)
    (_hpos : 0 < budget) :
    calculateBudgetUtilization products budget =
        min 100 (100 * sumPrices products / budget) ∧
      calculateBudgetUtilization products budget ≤ 100 ∧
      getBudgetStatus products budget =
        ⟨decide (sumPrices products ≤ budget), sumPrices products,
          budget - sumPrices products, calculateBudgetUtilization products budget⟩ ∧
      ((getBudgetStatus products budget).isWithinBudget = true ↔
        sumPrices products ≤ budget) := by
  refine ⟨?_, ?_, rfl, ?_⟩
  · unfold calculateBudgetUtilization
    rw [min_comm]
    congr 1
    ring
  · exact min_le_right _ _
  · simp [getBudgetStatus]

/-- Witness for C9 at a concrete list and budget. -/
theorem c9_budget_utilization_clamp_witness :
    (0 : ℚ) < 80 ∧
      (calculateBudgetUtilization [prodA, prodB] 80 =
          min 100 (100 * sumPrices [prodA, prodB] / 80) ∧
        calculateBudgetUtilization [prodA, prodB] 80 ≤ 100 ∧
        getBudgetStatus [prodA, prodB] 80 =
          ⟨decide (sumPrices [prodA, prodB] ≤ 80), sumPrices [prodA, prodB],
            80 - sumPrices [prodA, prodB],
            calculateBudgetUtilization [prodA, prodB] 80⟩ ∧
        ((getBudgetStatus [prodA, prodB] 80).isWithinBudget = true ↔
          sumPrices [prodA, prodB] ≤ 80)) :=
  ⟨by norm_num, c9_budget_utilization_clamp [prodA, prodB] 80 (by norm_num)⟩

theorem fallbackGo_swaps_spec (allProducts : List Product) (budget : ℚ) :
    ∀ (fuel i : ℕ) (optimized : List Product) (swaps : List Swap),
      (∀ s ∈ swaps, s.replacement.category = s.original.category ∧
        s.replacement.id ≠ s.original.id ∧
        s.replacement.price < s.original.price) →
      ∀ s ∈ (fallbackGo allProducts budget fuel i optimized swaps).2,
        s.replacement.category = s.original.category ∧
          s.replacement.id ≠ s.original.id ∧
          s.replacement.price < s.original.price := by
  intro fuel
  induction fuel with
  | zero => intro i optimized swaps hinv; exact hinv
  | succ n ih =>
    intro i optimized swaps hinv
    simp only [fallbackGo]
    split
    · exact hinv
    · next product hp =>
      split
      · exact ih _ _ _ hinv
      · next a rest halts =>
        have hmem : cheapestOf a rest ∈ findBudgetAlternatives product allProducts := by
          rw [halts]
          exact mem_cheapestOf a rest
        have hprops := mem_findBudgetAlternatives hmem
        have hnew : ∀ s ∈ swaps ++ [(⟨product, cheapestOf a rest,
            product.price - (cheapestOf a rest).price⟩ : Swap)],
            s.replacement.category = s.original.category ∧
              s.replacement.id ≠ s.original.id ∧
              s.replacement.price < s.original.price := by
          intro s hs
          rcases List.mem_append.1 hs with h | h
          · exact hinv s h
          · rw [List.mem_singleton] at h
            subst h
            exact ⟨hprops.1, hprops.2.2, hprops.2.1⟩
        split
        · split
          · exact hnew
          · exact ih _ _ _ hnew
        · exact ih _ _ _ hinv

/-- C2 counterexample — the oracle path validates only that the two ids
resolve, not the category: with products A ($40, top) and B ($60, shoes),
budget 70, catalog `[C]` where C is $5 shoes, an oracle-proposed swap
`A -> C` is applied and recorded even though C's category differs from A's,
so the claim as stated (category preservation on the oracle path too) is
false. -/
theorem c2_category_preservation_counterexample :
    (optimizeForBudget true (.ok [⟨"A", "C", 35, "cheap"⟩]) [prodA, prodB] 70
        [prodC]).swapsMade = [⟨prodA, prodC, 35⟩] ∧
      prodC.category ≠ prodA.category :=
  of_decide_eq_true (by with_unfolding_all rfl)

/-- C2 amended — category preservation holds on the deterministic fallback
path: when the oracle is unavailable (no credential, `genAIAvailable = false`),
every swap recorded by `optimizeForBudget` has a replacement of the same
category as the original, with a different id (and strictly lower price).  On
the oracle path only id resolution is validated, so there the invariant
depends on the oracle's proposals (see the counterexample). -/
theorem c2_fallback_swaps_preserve_category
    (parsedSwaps : Except Unit (List ProposedSwap))
    (products : List Product) (budget : ℚ) (allProducts : List Product) :
    ∀ s ∈ (optimizeForBudget false parsedSwaps products budget
        allProducts).swapsMade,
      s.replacement.category = s.original.category ∧
        s.replacement.id ≠ s.original.id := by
  intro s hs
  unfold optimizeForBudget at hs
  by_cases hb : sumPrices products ≤ budget
  · rw [if_pos hb] at hs
    simp at hs
  · rw [if_neg hb] at hs
    have herr : optimizeOutfitForBudget false parsedSwaps products budget
        allProducts = .error () := rfl
    rw [herr] at hs
    have h := fallbackGo_swaps_spec allProducts budget products.length 0
      products [] (by simp) s hs
    exact ⟨h.1, h.2.1⟩

/-- Witness for the amended C2, at the concrete fallback scenario: the swap of
A for A2 recorded there preserves the category and changes the id. -/
theorem c2_fallback_swaps_preserve_category_witness :
    prodA2.category = prodA.category ∧ prodA2.id ≠ prodA.id :=
  c2_fallback_swaps_preserve_category (.error ()) [prodA, prodB] 70
    [prodA2, prodB2] ⟨prodA, prodA2, 25⟩
    (of_decide_eq_true (by with_unfolding_all rfl))

theorem findIdx?_some_spec {α : Type} (p : α → Bool) :
    ∀ (l : List α) (i j : ℕ), List.findIdx? p l i = some j →
      ∃ a, l[j - i]? = some a ∧ p a = true ∧ i ≤ j := by
  intro l
  induction l with
  | nil =>
    intro i j h
    rw [List.findIdx?_nil] at h
    cases h
  | cons x xs ih =>
    intro i j h
    rw [List.findIdx?_cons] at h
    by_cases hp : p x = true
    · rw [if_pos hp] at h
      cases h
      exact ⟨x, by simp, hp, Nat.le_refl _⟩
    · rw [if_neg hp] at h
      obtain ⟨a, ha, hpa, hij⟩ := ih (i + 1) j h
      refine ⟨a, ?_, hpa, by omega⟩
      have hji : j - i = (j - (i + 1)) + 1 := by omega
      rw [hji]
      simpa using ha

theorem findIdx?_zero_spec {α : Type} (p : α → Bool) (l : List α) (j : ℕ)
    (h : List.findIdx? p l = some j) :
    ∃ hj : j < l.length, p (l.get ⟨j, hj⟩) = true := by
  obtain ⟨a, ha, hpa, _⟩ := findIdx?_some_spec p l 0 j h
  rw [Nat.sub_zero] at ha
  obtain ⟨hj, hval⟩ := List.getElem?_eq_some.1 ha
  refine ⟨hj, ?_⟩
  simpa [List.get_eq_getElem, hval] using hpa

theorem applyOracleSwap_invariant (products availableProducts : List Product)
    (hids : ∀ p q : Product, (p ∈ products ∨ p ∈ availableProducts) →
      (q ∈ products ∨ q ∈ availableProducts) → p.id = q.id → p.price = q.price)
    (st : List Product × ℚ × List Swap) (s : ProposedSwap)
    (h1 : ∀ x ∈ st.1, x ∈ products ∨ x ∈ availableProducts)
    (h2 : st.2.1 = sumPrices products - sumPrices st.1) :
    (∀ x ∈ (applyOracleSwap products availableProducts st s).1,
        x ∈ products ∨ x ∈ availableProducts) ∧
      (applyOracleSwap products availableProducts st s).2.1 =
        sumPrices products -
          sumPrices (applyOracleSwap products availableProducts st s).1 := by
  cases horig : products.find? (fun p => p.id == s.original_product_id) with
  | none =>
    have hid : applyOracleSwap products availableProducts st s = st := by
      simp only [applyOracleSwap, horig]
    rw [hid]
    exact ⟨h1, h2⟩
  | some orig =>
    cases hrepl : availableProducts.find?
        (fun p => p.id == s.replacement_product_id) with
    | none =>
      have hid : applyOracleSwap products availableProducts st s = st := by
        simp only [applyOracleSwap, horig, hrepl]
      rw [hid]
      exact ⟨h1, h2⟩
    | some repl =>
      cases hidx : st.1.findIdx? (fun p => p.id == orig.id) with
      | none =>
        have hid : applyOracleSwap products availableProducts st s = st := by
          simp only [applyOracleSwap, horig, hrepl, hidx]
        rw [hid]
        exact ⟨h1, h2⟩
      | some idx =>
        have hstep : applyOracleSwap products availableProducts st s =
            (st.1.set idx repl, st.2.1 + (orig.price - repl.price),
              st.2.2 ++ [⟨orig, repl, orig.price - repl.price⟩]) := by
          simp only [applyOracleSwap, horig, hrepl, hidx]
        obtain ⟨hlt, hpget⟩ := findIdx?_zero_spec _ _ _ hidx
        have hgetid : (st.1.get ⟨idx, hlt⟩).id = orig.id := by
          simpa using hpget
        have hgetmem : st.1.get ⟨idx, hlt⟩ ∈ st.1 := List.get_mem _ _ _
        have hgetprice : (st.1.get ⟨idx, hlt⟩).price = orig.price :=
          hids _ orig (h1 _ hgetmem)
            (Or.inl (List.mem_of_find?_eq_some horig)) hgetid
        rw [hstep]
        constructor
        · intro x hx
          rcases List.mem_or_eq_of_mem_set hx with h | h
          · exact h1 x h
          · subst h
            exact Or.inr (List.mem_of_find?_eq_some hrepl)
        · show st.2.1 + (orig.price - repl.price) =
            sumPrices products - sumPrices (st.1.set idx repl)
          rw [sumPrices_set st.1 idx repl hlt, hgetprice, h2]
          ring

theorem applyOracleSwaps_invariant (products availableProducts : List Product)
    (hids : ∀ p q : Product, (p ∈ products ∨ p ∈ availableProducts) →
      (q ∈ products ∨ q ∈ availableProducts) → p.id = q.id → p.price = q.price)
    (swaps : List ProposedSwap) :
    (∀ x ∈ (applyOracleSwaps products availableProducts swaps).1,
        x ∈ products ∨ x ∈ availableProducts) ∧
      (applyOracleSwaps products availableProducts swaps).2.1 =
        sumPrices products -
          sumPrices (applyOracleSwaps products availableProducts swaps).1 := by
  unfold applyOracleSwaps
  have h : ∀ (l : List ProposedSwap) (st : List Product × ℚ × List Swap),
      (∀ x ∈ st.1, x ∈ products ∨ x ∈ availableProducts) →
      st.2.1 = sumPrices products - sumPrices st.1 →
      (∀ x ∈ (l.foldl (applyOracleSwap products availableProducts) st).1,
          x ∈ products ∨ x ∈ availableProducts) ∧
        (l.foldl (applyOracleSwap products availableProducts) st).2.1 =
          sumPrices products -
            sumPrices (l.foldl (applyOracleSwap products availableProducts) st).1 := by
    intro l
    induction l with
    | nil => intro st ha hb; exact ⟨ha, hb⟩
    | cons x t ih =>
      intro st ha hb
      rw [List.foldl_cons]
      obtain ⟨hc, hd⟩ := applyOracleSwap_invariant products availableProducts
        hids st x ha hb
      exact ih _ hc hd
  exact h swaps (products, 0, []) (fun x hx => Or.inl hx) (by simp)

theorem optimizeOutfitForBudget_ok_savings {genAIAvailable : Bool}
    {parsedSwaps : Except Unit (List ProposedSwap)}
    {products : List Product} {budget : ℚ} {availableProducts : List Product}
    {r : BudgetOptimization}
    (hids : ∀ p q : Product, (p ∈ products ∨ p ∈ availableProducts) →
      (q ∈ products ∨ q ∈ availableProducts) → p.id = q.id → p.price = q.price)
    (h : optimizeOutfitForBudget genAIAvailable parsedSwaps products budget
        availableProducts = .ok r) :
    r.savings = sumPrices products - r.totalCost := by
  unfold optimizeOutfitForBudget at h
  split at h
  · exact absurd h (by simp)
  · split at h
    · cases h
      simp
    · split at h
      · exact absurd h (by simp)
      · cases h
        simpa using
          (applyOracleSwaps_invariant products availableProducts hids _).2

/-- C5 — savings accounting: on every path (fast path, oracle path with any
list of proposed swaps, deterministic fallback), the returned savings equals
the initial sum of the input prices minus the returned totalCost.  The
hypothesis encodes the data model's guarantee that a product id identifies one
product — equal ids among the input products and the catalog mean equal
prices (ids are the primary key of the products table). -/
theorem c5_savings_accounting (genAIAvailable : Bool)
    (parsedSwaps : Except Unit (List ProposedSwap))
    (products : List Product) (budget : ℚ) (allProducts : List Product)
    (hids : ∀ p q : Product, (p ∈ products ∨ p ∈ allProducts) →
      (q ∈ products ∨ q ∈ allProducts) → p.id = q.id → p.price = q.price) :
    (optimizeForBudget genAIAvailable parsedSwaps products budget
        allProducts).savings =
      sumPrices products -
        (optimizeForBudget genAIAvailable parsedSwaps products budget
          allProducts).totalCost := by
  unfold optimizeForBudget
  split
  · simp
  · split
    · next r hr => simpa using optimizeOutfitForBudget_ok_savings hids hr
    · simp [optimizeForBudgetFallback]

/-- Witness for C5 at a concrete over-budget input where the oracle applies
one swap. -/
theorem c5_savings_accounting_witness :
    (optimizeForBudget true (.ok [⟨"A", "A2", 25, "cheaper top"⟩])
        [prodA, prodB] 70 [prodA2, prodB2]).savings =
      sumPrices [prodA, prodB] -
        (optimizeForBudget true (.ok [⟨"A", "A2", 25, "cheaper top"⟩])
          [prodA, prodB] 70 [prodA2, prodB2]).totalCost := by
  apply c5_savings_accounting
  intro p q hp hq hid
  have hp2 : p = prodA ∨ p = prodB ∨ p = prodA2 ∨ p = prodB2 := by
    rcases hp with h | h <;>
      simp only [List.mem_cons, List.mem_singleton, List.not_mem_nil,
        or_false] at h <;> tauto
  have hq2 : q = prodA ∨ q = prodB ∨ q = prodA2 ∨ q = prodB2 := by
    rcases hq with h | h <;>
      simp only [List.mem_cons, List.mem_singleton, List.not_mem_nil,
        or_false] at h <;> tauto
  revert hid
  rcases hp2 with rfl | rfl | rfl | rfl <;> rcases hq2 with rfl | rfl | rfl | rfl <;>
    exact of_decide_eq_true (by with_unfolding_all rfl)

theorem applyOracleSwap_invalid (products availableProducts : List Product)
    (s : ProposedSwap)
    (hinv : products.find? (fun p => p.id == s.original_product_id) = none ∨
      availableProducts.find? (fun p => p.id == s.replacement_product_id) = none)
    (st : List Product × ℚ × List Swap) :
    applyOracleSwap products availableProducts st s = st := by
  rcases hinv with h | h
  · simp only [applyOracleSwap, h]
  · cases horig : products.find? (fun p => p.id == s.original_product_id) with
    | none => simp only [applyOracleSwap, horig]
    | some orig => simp only [applyOracleSwap, horig, h]

/-- C8 — oracle swap validation: a proposed swap whose original id resolves to
no input product, or whose replacement id resolves to no catalog product, is
silently discarded: deleting it from the proposed batch leaves the entire
result of `optimizeForBudget` unchanged (no swap entry, no product change, no
savings change, no error), while every other swap in the batch is still
applied. -/
theorem c8_invalid_oracle_swap_discarded (genAIAvailable : Bool)
    (pre post : List ProposedSwap) (s : ProposedSwap)
    (products : List Product) (budget : ℚ) (allProducts : List Product)
    (hinv : products.find? (fun p => p.id == s.original_product_id) = none ∨
      allProducts.find? (fun p => p.id == s.replacement_product_id) = none) :
    optimizeForBudget genAIAvailable (.ok (pre ++ s :: post)) products budget
        allProducts =
      optimizeForBudget genAIAvailable (.ok (pre ++ post)) products budget
        allProducts := by
  have hsw : applyOracleSwaps products allProducts (pre ++ s :: post) =
      applyOracleSwaps products allProducts (pre ++ post) := by
    unfold applyOracleSwaps
    rw [List.foldl_append, List.foldl_append, List.foldl_cons,
      applyOracleSwap_invalid products allProducts s hinv]
  simp only [optimizeForBudget, optimizeOutfitForBudget]
  rw [hsw]

/-- Witness for C8: the invalid swap (unknown original id Z) is discarded while
the valid swap of A for A2 in the same batch is still applied. -/
theorem c8_invalid_oracle_swap_discarded_witness :
    ([prodA, prodB].find? (fun p => p.id == "Z") = none ∨
      [prodA2, prodB2].find? (fun p => p.id == "B2") = none) ∧
      optimizeForBudget true
          (.ok [⟨"A", "A2", 25, "valid"⟩, ⟨"Z", "B2", 0, "bad id"⟩])
          [prodA, prodB] 70 [prodA2, prodB2] =
        optimizeForBudget true (.ok [⟨"A", "A2", 25, "valid"⟩])
          [prodA, prodB] 70 [prodA2, prodB2] :=
  ⟨Or.inl (by with_unfolding_all rfl),
    c8_invalid_oracle_swap_discarded true [⟨"A", "A2", 25, "valid"⟩] []
      ⟨"Z", "B2", 0, "bad id"⟩ [prodA, prodB] 70 [prodA2, prodB2]
      (Or.inl (by with_unfolding_all rfl))⟩

end QuickBudget
